import Mathlib

/-!
Verification of the Huobi REST client (`src/api/huobi/client.rs`).

The development shallowly embeds the pure request-construction core of the
client: UTF-8 byte sequences of Rust strings, the `BTreeMap<String, String>`
parameter maps (as key-sorted association lists together with the ordered
insertion operation), the canonical query-string builder
(`build_query_string`), the custom percent-encoding (`percent_encode`, the
`USERINFO_ENCODE_SET` of the `percent_encoding` crate extended with `+` and
`,`), HMAC-SHA256 with standard base64 (`sign_hmac_sha256_base64`, embedding
ring's HMAC and `data_encoding::BASE64`), the request-target assembly of
`Client::get`, `Client::get_signed` and `Client::post_signed`, and the
error-envelope check performed on every response body.

Effectful pieces (the wall-clock read in `get_timestamp`, the HTTP dispatch,
JSON deserialization by the external `serde_json` crate, and the
`APIErrorResponse` model type whose source file is not part of the sources)
are made explicit: the timestamp is passed as a string argument, the response
body is an argument of the envelope check, and JSON parsing plus the envelope
shape are modelled from the specification where noted.
-/

namespace Huobi

/-- UTF-8 encoding of a single Unicode code point (the byte representation
Rust strings use; `str::as_bytes` exposes exactly these bytes). -/
def utf8EncodeChar (c : Nat) : List Nat :=
  if c < 0x80 then [c]
  else if c < 0x800 then
    [0xC0 ||| (c >>> 6), 0x80 ||| (c &&& 0x3F)]
  else if c < 0x10000 then
    [0xE0 ||| (c >>> 12), 0x80 ||| ((c >>> 6) &&& 0x3F), 0x80 ||| (c &&& 0x3F)]
  else
    [0xF0 ||| (c >>> 18), 0x80 ||| ((c >>> 12) &&& 0x3F),
     0x80 ||| ((c >>> 6) &&& 0x3F), 0x80 ||| (c &&& 0x3F)]

/-- The UTF-8 bytes of a string, i.e. Rust's `s.as_bytes()`. -/
def utf8Bytes (s : String) : List Nat :=
  s.data.flatMap (fun c => utf8EncodeChar c.toNat)

/-- Strict lexicographic order on code-point sequences.  Rust's `Ord` on
`String` compares the UTF-8 bytes lexicographically; since UTF-8 preserves
the order of code points, comparing the code points themselves yields the
same order (`keyLt_agrees_with_byte_order_on_ascii` below checks the
agreement on the ASCII keys the client actually uses). -/
def charListLt : List Char → List Char → Bool
  | [], [] => false
  | [], _ :: _ => true
  | _ :: _, [] => false
  | a :: as, b :: bs =>
    if a.toNat < b.toNat then true
    else if b.toNat < a.toNat then false
    else charListLt as bs

/-- The `BTreeMap<String, _>` key order. -/
def keyLt (a b : String) : Bool := charListLt a.data b.data

/-- Strict lexicographic order on byte sequences (Rust's `Ord` on `[u8]`). -/
def bytesLt : List Nat → List Nat → Bool
  | [], [] => false
  | [], _ :: _ => true
  | _ :: _, [] => false
  | a :: as, b :: bs =>
    if a < b then true
    else if b < a then false
    else bytesLt as bs

/-- `BTreeMap::insert`: a `BTreeMap<String, String>` is embedded as its
key-sorted entry list; insertion replaces the value of an existing key and
otherwise places the new entry at its ordered position. -/
def insertSorted (k v : String) : List (String × String) → List (String × String)
  | [] => [(k, v)]
  | (k', v') :: rest =>
    if k = k' then (k, v) :: rest
    else if keyLt k k' then (k, v) :: (k', v') :: rest
    else (k', v') :: insertSorted k v rest

/-- A `BTreeMap<String, String>` built by inserting the given pairs in
order (later insertions of an existing key overwrite the earlier value),
as its sorted entry list. -/
def mapOfList (l : List (String × String)) : List (String × String) :=
  l.foldl (fun m kv => insertSorted kv.1 kv.2 m) []

/-- `BTreeMap`-style lookup on the entry list (first entry with the key). -/
def findVal (k : String) : List (String × String) → Option String
  | [] => none
  | (k', v) :: rest => if k = k' then some v else findVal k rest

/-- The printable ASCII bytes of `CUSTOM_ENCODE_SET` in
`percent_encode`: the `USERINFO_ENCODE_SET` of the `percent_encoding`
crate — space, `"`, `#`, `<`, `>`, backtick, `?`, the two curly braces,
`/`, `:`, `;`, `=`, `@`, `[`, backslash, `]`, `^`, `|` — extended by the
source with `+` (0x2B) and `,` (0x2C). -/
def customEncodeSet : List Nat :=
  [0x20, 0x22, 0x23, 0x3C, 0x3E, 0x60, 0x3F, 0x7B, 0x7D,
   0x2F, 0x3A, 0x3B, 0x3D, 0x40, 0x5B, 0x5C, 0x5D, 0x5E, 0x7C,
   0x2B, 0x2C]

/-- Whether a byte is percent-escaped by `CUSTOM_ENCODE_SET`: every byte
below 0x20 or above 0x7E (the `SIMPLE_ENCODE_SET` baseline) plus the listed
printable bytes. -/
def inCustomEncodeSet (b : Nat) : Bool :=
  b < 0x20 || 0x7E < b || customEncodeSet.contains b

/-- Uppercase hexadecimal digit, as emitted by the `percent_encoding` crate. -/
def hexDigit (n : Nat) : Char := "0123456789ABCDEF".data.getD n '0'

/-- How `utf8_percent_encode` renders one byte: `%XX` for bytes of the
encode set, the byte itself otherwise. -/
def encodeByte (b : Nat) : List Char :=
  if inCustomEncodeSet b then [Char.ofNat 0x25, hexDigit (b / 16), hexDigit (b % 16)]
  else [Char.ofNat b]

/-- `percent_encode` from the source: UTF-8 bytes of the input, each byte
escaped iff it lies in `CUSTOM_ENCODE_SET`. -/
def percent_encode (source : String) : String :=
  String.mk ((utf8Bytes source).flatMap encodeByte)

/-! ## SHA-256 (FIPS 180-4), HMAC, and standard base64

Embedding of `ring`'s `hmac::sign` with `digest::SHA256` and of
`data_encoding::BASE64`, the primitives `sign_hmac_sha256_base64` composes.
Machine words are `Nat`s kept below `2^32` by explicit reduction. -/

/-- Truncation to a 32-bit word. -/
def w32 (n : Nat) : Nat := n % 4294967296

/-- Right rotation of a 32-bit word. -/
def rotr (n x : Nat) : Nat := w32 ((x >>> n) ||| (x <<< (32 - n)))

def bigSigma0 (x : Nat) : Nat := (rotr 2 x) ^^^ (rotr 13 x) ^^^ (rotr 22 x)

def bigSigma1 (x : Nat) : Nat := (rotr 6 x) ^^^ (rotr 11 x) ^^^ (rotr 25 x)

def smallSigma0 (x : Nat) : Nat := (rotr 7 x) ^^^ (rotr 18 x) ^^^ (x >>> 3)

def smallSigma1 (x : Nat) : Nat := (rotr 17 x) ^^^ (rotr 19 x) ^^^ (x >>> 10)

/-- SHA-256 `Ch(x, y, z)`; the complement is taken against the 32-bit mask. -/
def chF (x y z : Nat) : Nat := (x &&& y) ^^^ ((4294967295 ^^^ x) &&& z)

def majF (x y z : Nat) : Nat := (x &&& y) ^^^ (x &&& z) ^^^ (y &&& z)

/-- The 64 SHA-256 round constants of FIPS 180-4 (decimal rendering of the
usual hexadecimal table). -/
def K256 : List Nat :=
  [1116352408, 1899447441, 3049323471, 3921009573, 961987163, 1508970993,
   2453635748, 2870763221, 3624381080, 310598401, 607225278, 1426881987,
   1925078388, 2162078206, 2614888103, 3248222580, 3835390401, 4022224774,
   264347078, 604807628, 770255983, 1249150122, 1555081692, 1996064986,
   2554220882, 2821834349, 2952996808, 3210313671, 3336571891, 3584528711,
   113926993, 338241895, 666307205, 773529912, 1294757372, 1396182291,
   1695183700, 1986661051, 2177026350, 2456956037, 2730485921, 2820302411,
   3259730800, 3345764771, 3516065817, 3600352804, 4094571909, 275423344,
   430227734, 506948616, 659060556, 883997877, 958139571, 1322822218,
   1537002063, 1747873779, 1955562222, 2024104815, 2227730452, 2361852424,
   2428436474, 2756734187, 3204031479, 3329325298]

/-- The SHA-256 initial hash value of FIPS 180-4 (decimal rendering). -/
def H256 : List Nat :=
  [1779033703, 3144134277, 1013904242, 2773480762,
   1359893119, 2600822924, 528734635, 1541459225]

/-- Big-endian 32-bit word from four bytes. -/
def beWord (a b c d : Nat) : Nat := (a <<< 24) ||| (b <<< 16) ||| (c <<< 8) ||| d

/-- Four bytes at a time into big-endian words (fuel-driven; 16 steps cover
one 64-byte block). -/
def bytesToWords : Nat → List Nat → List Nat
  | 0, _ => []
  | _, [] => []
  | fuel + 1, a :: b :: c :: d :: rest => beWord a b c d :: bytesToWords fuel rest
  | _ + 1, _ => []

/-- One extension step of the message schedule: append
`σ1(w[t-2]) + w[t-7] + σ0(w[t-15]) + w[t-16]`. -/
def nextW (w : List Nat) : List Nat :=
  let t := w.length
  w ++ [w32 (smallSigma1 (w.getD (t - 2) 0) + w.getD (t - 7) 0 +
             smallSigma0 (w.getD (t - 15) 0) + w.getD (t - 16) 0)]

/-- The 64-word message schedule of a 16-word block. -/
def schedule (block : List Nat) : List Nat :=
  (List.range 48).foldl (fun w _ => nextW w) block

/-- The eight working registers of the compression function. -/
structure Regs where
  a : Nat
  b : Nat
  c : Nat
  d : Nat
  e : Nat
  f : Nat
  g : Nat
  h : Nat

/-- One SHA-256 round. -/
def compressStep (r : Regs) (k w : Nat) : Regs :=
  let t1 := w32 (r.h + bigSigma1 r.e + chF r.e r.f r.g + k + w)
  let t2 := w32 (bigSigma0 r.a + majF r.a r.b r.c)
  ⟨w32 (t1 + t2), r.a, r.b, r.c, w32 (r.d + t1), r.e, r.f, r.g⟩

/-- SHA-256 compression of one 64-byte block into the running hash value. -/
def compressBlock (h : List Nat) (block : List Nat) : List Nat :=
  let ws := schedule (bytesToWords 16 block)
  let init : Regs := ⟨h.getD 0 0, h.getD 1 0, h.getD 2 0, h.getD 3 0,
                      h.getD 4 0, h.getD 5 0, h.getD 6 0, h.getD 7 0⟩
  let fin := (K256.zip ws).foldl (fun r kw => compressStep r kw.1 kw.2) init
  [w32 (h.getD 0 0 + fin.a), w32 (h.getD 1 0 + fin.b), w32 (h.getD 2 0 + fin.c),
   w32 (h.getD 3 0 + fin.d), w32 (h.getD 4 0 + fin.e), w32 (h.getD 5 0 + fin.f),
   w32 (h.getD 6 0 + fin.g), w32 (h.getD 7 0 + fin.h)]

/-- SHA-256 padding: `0x80`, zeros to 56 mod 64, then the bit length as
eight big-endian bytes. -/
def padMessage (msg : List Nat) : List Nat :=
  let len := msg.length
  let zeros := (120 - (len % 64 + 1)) % 64
  msg ++ [0x80] ++ List.replicate zeros 0 ++
    (List.range 8).map (fun i => ((8 * len) >>> (8 * (7 - i))) % 256)

/-- The padded message as 64-byte blocks (fuel-driven). -/
def chunk64 : Nat → List Nat → List (List Nat)
  | 0, _ => []
  | _, [] => []
  | fuel + 1, l => l.take 64 :: chunk64 fuel (l.drop 64)

/-- Big-endian bytes of a 32-bit word. -/
def wordBytes (w : Nat) : List Nat :=
  [(w >>> 24) % 256, (w >>> 16) % 256, (w >>> 8) % 256, w % 256]

/-- SHA-256 of a byte sequence, as the 32 digest bytes. -/
def sha256 (msg : List Nat) : List Nat :=
  let padded := padMessage msg
  let blocks := chunk64 (padded.length / 64 + 1) padded
  (blocks.foldl compressBlock H256).flatMap wordBytes

/-- HMAC-SHA256 (RFC 2104), as computed by `ring::hmac` with a SHA-256 key:
the key is hashed if longer than the 64-byte block, zero-padded to the
block, and the digest is `H((k ⊕ opad) ‖ H((k ⊕ ipad) ‖ msg))`. -/
def hmacSha256 (key msg : List Nat) : List Nat :=
  let k0 :=
    if 64 < key.length then sha256 key ++ List.replicate 32 0
    else key ++ List.replicate (64 - key.length) 0
  sha256 ((k0.map (fun b => b ^^^ 0x5c)) ++ sha256 ((k0.map (fun b => b ^^^ 0x36)) ++ msg))

/-- The standard base64 alphabet of `data_encoding::BASE64`. -/
def b64Char (n : Nat) : Char :=
  "ABCDEFGHIJKLMNOPQRSTUVWXYZabcdefghijklmnopqrstuvwxyz0123456789+/".data.getD n 'A'

/-- Base64 groups of three bytes into four characters, padding the final
partial group with `=` (fuel-driven). -/
def b64Groups : Nat → List Nat → List Char
  | 0, _ => []
  | _, [] => []
  | fuel + 1, b1 :: rest =>
    match rest with
    | b2 :: b3 :: rest' =>
      b64Char (b1 >>> 2) :: b64Char (((b1 % 4) <<< 4) ||| (b2 >>> 4)) ::
        b64Char (((b2 % 16) <<< 2) ||| (b3 >>> 6)) :: b64Char (b3 % 64) :: b64Groups fuel rest'
    | [b2] =>
      [b64Char (b1 >>> 2), b64Char (((b1 % 4) <<< 4) ||| (b2 >>> 4)),
       b64Char ((b2 % 16) <<< 2), '=']
    | [] => [b64Char (b1 >>> 2), b64Char ((b1 % 4) <<< 4), '=', '=']

/-- `data_encoding::BASE64.encode`: standard alphabet, `=`-padded. -/
def base64Encode (bytes : List Nat) : String :=
  String.mk (b64Groups (bytes.length + 1) bytes)

/-- `sign_hmac_sha256_base64` from the source: base64 of the HMAC-SHA256 of
the message bytes under the secret bytes. -/
def sign_hmac_sha256_base64 (secret : String) (digest : String) : String :=
  base64Encode (hmacSha256 (utf8Bytes secret) (utf8Bytes digest))

/-- `Vec::join(sep)`. -/
def joinSep (sep : String) : List String → String
  | [] => ""
  | [x] => x
  | x :: y :: rest => x ++ sep ++ joinSep sep (y :: rest)

/-- `build_query_string` from the source: iterate the map in key order,
render `key=percent_encode(value)`, join with `&`. -/
def build_query_string (parameters : List (String × String)) : String :=
  joinSep "&" (parameters.map (fun kv => kv.1 ++ "=" ++ percent_encode kv.2))

/-! ## The client -/

/-- `HUOBI_API_HOST`. -/
def HUOBI_API_HOST : String := "api.huobi.pro"

/-- The credential-bound `Client`. -/
structure Client where
  api_key : String
  secret_key : String

/-- Rust `String::pop`: remove the last character, if any. -/
def strPop (s : String) : String := String.mk s.data.dropLast

/-- The query string `Client::get` builds: iterate the map in key order,
push `key=value&` (values NOT percent-encoded), then pop the trailing
separator. -/
def getQuery (parameters : List (String × String)) : String :=
  strPop (parameters.foldl (fun acc kv => acc ++ (kv.1 ++ "=" ++ kv.2 ++ "&")) "")

/-- The request target `Client::get` dispatches:
`https://{host}{endpoint}?{query}` (the `?` is unconditional). -/
def get_request_url (endpoint : String) (parameters : List (String × String)) : String :=
  "https://" ++ HUOBI_API_HOST ++ endpoint ++ "?" ++ getQuery parameters

/-- Modelled from the spec: `get_timestamp` reads the wall clock through the
external `chrono` crate and formats it with `%Y-%m-%dT%H:%M:%S` (UTC, second
precision, zero-padded fields, no fractional seconds, no zone suffix).  The
clock read is made explicit as UTC components.  Two-digit zero padding. -/
def pad2 (n : Nat) : String := if n < 10 then "0" ++ toString n else toString n

/-- Modelled from the spec: `%Y` pads the year to four digits. -/
def pad4 (n : Nat) : String :=
  if n < 10 then "000" ++ toString n
  else if n < 100 then "00" ++ toString n
  else if n < 1000 then "0" ++ toString n
  else toString n

/-- Modelled from the spec: the timestamp `get_timestamp` produces at the
given UTC instant, `YYYY-MM-DDTHH:MM:SS`. -/
def get_timestamp_at (year month day hour minute second : Nat) : String :=
  pad4 year ++ "-" ++ pad2 month ++ "-" ++ pad2 day ++ "T" ++
    pad2 hour ++ ":" ++ pad2 minute ++ ":" ++ pad2 second

/-- The four auth-parameter insertions shared by `get_signed` and
`post_signed` (`ts` is the string `get_timestamp()` returned). -/
def insert_auth_params (c : Client) (ts : String) (params : List (String × String)) :
    List (String × String) :=
  insertSorted "Timestamp" ts
    (insertSorted "SignatureVersion" "2"
      (insertSorted "SignatureMethod" "HmacSHA256"
        (insertSorted "AccessKeyId" c.api_key params)))

/-- The pre-sign string `METHOD\nHOST\nPATH\nCANONICAL_QUERY`. -/
def presign (method endpoint query : String) : String :=
  method ++ "\n" ++ HUOBI_API_HOST ++ "\n" ++ endpoint ++ "\n" ++ query

/-- The request target `Client::get_signed` dispatches, given the timestamp
`get_timestamp()` returned and the caller's parameter map. -/
def get_signed_url (c : Client) (ts endpoint : String)
    (params : List (String × String)) : String :=
  let q := build_query_string (insert_auth_params c ts params)
  let signature := sign_hmac_sha256_base64 c.secret_key (presign "GET" endpoint q)
  "https://" ++ HUOBI_API_HOST ++ endpoint ++ "?" ++ q ++ "&Signature=" ++
    percent_encode signature

/-- The request target `Client::post_signed` dispatches; identical to
`get_signed` except that the pre-sign string starts with `POST`. -/
def post_signed_url (c : Client) (ts endpoint : String)
    (params : List (String × String)) : String :=
  let q := build_query_string (insert_auth_params c ts params)
  let signature := sign_hmac_sha256_base64 c.secret_key (presign "POST" endpoint q)
  "https://" ++ HUOBI_API_HOST ++ endpoint ++ "?" ++ q ++ "&Signature=" ++
    percent_encode signature

/-! ## The error-envelope check

Every one of `get`, `get_signed` and `post_signed` ends with the same block:
deserialize the body as `APIErrorResponse<serde_json::Value>` (the `?`
operator propagates a failure), fail with `HuobiError::ApiError` when the
optional `status` field holds `"error"`, and return the raw body otherwise.
JSON parsing is performed by the external `serde_json` crate and the
`APIErrorResponse` shape lives in the `models` module, which is not among
the sources; both are modelled from the spec below. -/

/-- Modelled from the spec: `serde_json::Value`, the loosely-typed JSON
value the envelope's payload is decoded into.  Numbers are kept as their
source lexeme; the envelope never inspects them. -/
inductive Json where
  | null
  | bool (b : Bool)
  | num (lexeme : String)
  | str (s : String)
  | arr (elems : List Json)
  | obj (fields : List (String × Json))

/-- JSON insignificant whitespace. -/
def jsonWs (c : Char) : Bool :=
  c = ' ' || c = Char.ofNat 9 || c = Char.ofNat 10 || c = Char.ofNat 13

/-- Drop leading JSON whitespace. -/
def skipWs : List Char → List Char
  | [] => []
  | c :: rest => if jsonWs c then skipWs rest else c :: rest

/-- Modelled from the spec: one escape of a JSON string literal (the
`\uXXXX` form is not modelled; no envelope field of interest uses it). -/
def unescape (c : Char) : Option Char :=
  if c = Char.ofNat 0x22 then some (Char.ofNat 0x22)
  else if c = Char.ofNat 0x5C then some (Char.ofNat 0x5C)
  else if c = Char.ofNat 0x2F then some (Char.ofNat 0x2F)
  else if c = 'n' then some (Char.ofNat 10)
  else if c = 't' then some (Char.ofNat 9)
  else if c = 'r' then some (Char.ofNat 13)
  else if c = 'b' then some (Char.ofNat 8)
  else if c = 'f' then some (Char.ofNat 12)
  else none

/-- Modelled from the spec: the body of a JSON string literal after the
opening quote, returning the decoded string and the input past the closing
quote (fuel-driven). -/
def stringBody : Nat → List Char → Option (String × List Char)
  | 0, _ => none
  | _, [] => none
  | fuel + 1, c :: rest =>
    if c = Char.ofNat 0x22 then some ("", rest)
    else if c = Char.ofNat 0x5C then
      match rest with
      | [] => none
      | e :: rest' =>
        match unescape e with
        | none => none
        | some d =>
          match stringBody fuel rest' with
          | none => none
          | some (s, r) => some (String.mk (d :: s.data), r)
    else if c.toNat < 0x20 then none
    else
      match stringBody fuel rest with
      | none => none
      | some (s, r) => some (String.mk (c :: s.data), r)

/-- A character that may continue a JSON number lexeme. -/
def numChar (c : Char) : Bool :=
  c.isDigit || c = '-' || c = '+' || c = '.' || c = 'e' || c = 'E'

/-- A parse frame: an array or an object under construction (elements in
reverse order; for objects also the key whose value is being read). -/
inductive Frame where
  | arr (acc : List Json)
  | obj (acc : List (String × Json)) (key : String)

/-- Modelled from the spec: the JSON grammar accepted by `serde_json`, as a
fuel-driven stack machine.  `cur = none` means a value is expected next;
`cur = some j` means the value `j` was just completed and a separator or a
closing bracket follows.  Consumes the whole input (trailing whitespace
aside), as `serde_json::from_str` does. -/
def jsonRun : Nat → List Char → List Frame → Option Json → Option Json
  | 0, _, _, _ => none
  | fuel + 1, input, stack, some j =>
    match stack with
    | [] => if skipWs input = [] then some j else none
    | Frame.arr acc :: stk =>
      match skipWs input with
      | ',' :: rest => jsonRun fuel rest (Frame.arr (j :: acc) :: stk) none
      | ']' :: rest => jsonRun fuel rest stk (some (Json.arr (j :: acc).reverse))
      | _ => none
    | Frame.obj acc key :: stk =>
      match skipWs input with
      | ',' :: rest =>
        (match skipWs rest with
         | q :: rest' =>
           if q = Char.ofNat 0x22 then
             match stringBody (fuel + 1) rest' with
             | some (key', r) =>
               match skipWs r with
               | ':' :: r' =>
                 jsonRun fuel r' (Frame.obj ((key, j) :: acc) key' :: stk) none
               | _ => none
             | none => none
           else none
         | [] => none)
      | c :: rest =>
        if c.toNat = 0x7D then jsonRun fuel rest stk (some (Json.obj ((key, j) :: acc).reverse))
        else none
      | [] => none
  | fuel + 1, input, stack, none =>
    match skipWs input with
    | [] => none
    | c :: rest =>
      if c = Char.ofNat 0x22 then
        match stringBody (fuel + 1) rest with
        | some (s, r) => jsonRun fuel r stack (some (Json.str s))
        | none => none
      else if c = '[' then
        match skipWs rest with
        | ']' :: rest' => jsonRun fuel rest' stack (some (Json.arr []))
        | _ => jsonRun fuel rest (Frame.arr [] :: stack) none
      else if c.toNat = 0x7B then
        match skipWs rest with
        | q :: rest' =>
          if q.toNat = 0x7D then jsonRun fuel rest' stack (some (Json.obj []))
          else if q = Char.ofNat 0x22 then
            match stringBody (fuel + 1) rest' with
            | some (key, r) =>
              match skipWs r with
              | ':' :: r' => jsonRun fuel r' (Frame.obj [] key :: stack) none
              | _ => none
            | none => none
          else none
        | [] => none
      else if c = 'n' then
        match rest with
        | 'u' :: 'l' :: 'l' :: rest' => jsonRun fuel rest' stack (some Json.null)
        | _ => none
      else if c = 't' then
        match rest with
        | 'r' :: 'u' :: 'e' :: rest' => jsonRun fuel rest' stack (some (Json.bool true))
        | _ => none
      else if c = 'f' then
        match rest with
        | 'a' :: 'l' :: 's' :: 'e' :: rest' => jsonRun fuel rest' stack (some (Json.bool false))
        | _ => none
      else if c.isDigit || c = '-' then
        jsonRun fuel (rest.dropWhile numChar) stack
          (some (Json.num (String.mk (c :: rest.takeWhile numChar))))
      else none

/-- Modelled from the spec: `serde_json::from_str` to a `Value`. -/
def parseJson (body : String) : Option Json :=
  jsonRun (body.data.length + 2) body.data [] none

/-- Modelled from the spec: the `APIErrorResponse` envelope of the `models`
module — an optional `status` field (the error sentinel carrier) together
with the optional `err-code`, `err-msg` and `data` payload fields the error
dump carries. -/
structure APIErrorResponse where
  status : Option String
  err_code : Option String
  err_msg : Option String
  data : Option Json

/-- First field of the given name (serde reads object fields by name). -/
def fieldOf (k : String) : List (String × Json) → Option Json
  | [] => none
  | (k', v) :: rest => if k = k' then some v else fieldOf k rest

/-- Modelled from the spec: deserializing an optional string field — absent
or `null` gives `none`, a string gives the string, any other shape is a
deserialization failure. -/
def optString : Option Json → Option (Option String)
  | none => some none
  | some Json.null => some none
  | some (Json.str s) => some (some s)
  | some _ => none

/-- Modelled from the spec: decoding the envelope from a JSON value — the
top level must be an object, the three string fields are optional. -/
def envelopeOfJson : Json → Option APIErrorResponse
  | Json.obj fields =>
    match optString (fieldOf "status" fields), optString (fieldOf "err-code" fields),
          optString (fieldOf "err-msg" fields) with
    | some st, some ec, some em => some ⟨st, ec, em, fieldOf "data" fields⟩
    | _, _, _ => none
  | _ => none

/-- The envelope `serde_json::from_str::<APIErrorResponse<Value>>` yields
for a body, if any. -/
def parseEnvelope (body : String) : Option APIErrorResponse :=
  (parseJson body).bind envelopeOfJson

/-- The failures an operation can surface once a body has been received:
the serde error the `?` operator propagates, or `HuobiError::ApiError`
(whose message is the debug dump of the envelope; the envelope itself is
carried here). -/
inductive ClientError where
  | apiError (dump : APIErrorResponse)
  | deserialize

/-- The response tail shared verbatim by `get`, `get_signed` and
`post_signed`: deserialize the envelope (propagating failure), fail with an
API error when `status` is `"error"`, return the raw body otherwise. -/
def check_response (body : String) : Except ClientError String :=
  match parseEnvelope body with
  | none => Except.error ClientError.deserialize
  | some env =>
    match env.status with
    | some status =>
      if status = "error" then Except.error (ClientError.apiError env) else Except.ok body
    | none => Except.ok body

/-- The envelope check as it appears at the end of `Client::get`. -/
def get_check_response (body : String) : Except ClientError String := check_response body

/-- The envelope check as it appears at the end of `Client::get_signed`. -/
def get_signed_check_response (body : String) : Except ClientError String := check_response body

/-- The envelope check as it appears at the end of `Client::post_signed`. -/
def post_signed_check_response (body : String) : Except ClientError String := check_response body

/-! ## Order and insertion lemmas -/

theorem charToNat_inj {c d : Char} (h : c.toNat = d.toNat) : c = d := by
  have h2 := congrArg Char.ofNat h
  rwa [Char.ofNat_toNat, Char.ofNat_toNat] at h2

theorem charListLt_irrefl (l : List Char) : charListLt l l = false := by
  induction l with
  | nil => rfl
  | cons a as ih => simp [charListLt, ih]

theorem charListLt_trans : ∀ {a b c : List Char},
    charListLt a b = true → charListLt b c = true → charListLt a c = true := by
  intro a
  induction a with
  | nil =>
    intro b c hab hbc
    cases b with
    | nil => exact hbc
    | cons y ys =>
      cases c with
      | nil => simp [charListLt] at hbc
      | cons z zs => rfl
  | cons x xs ih =>
    intro b c hab hbc
    cases b with
    | nil => simp [charListLt] at hab
    | cons y ys =>
      cases c with
      | nil => simp [charListLt] at hbc
      | cons z zs =>
        simp only [charListLt] at hab hbc ⊢
        split_ifs at hab hbc ⊢ <;> first | rfl | omega | exact ih hab hbc

theorem charListLt_trichotomy : ∀ a b : List Char,
    a = b ∨ charListLt a b = true ∨ charListLt b a = true := by
  intro a
  induction a with
  | nil =>
    intro b
    cases b with
    | nil => exact Or.inl rfl
    | cons y ys => exact Or.inr (Or.inl rfl)
  | cons x xs ih =>
    intro b
    cases b with
    | nil => exact Or.inr (Or.inr rfl)
    | cons y ys =>
      rcases Nat.lt_trichotomy x.toNat y.toNat with h | h | h
      · exact Or.inr (Or.inl (by simp [charListLt, h]))
      · have hxy : x = y := charToNat_inj h
        subst hxy
        rcases ih ys with h2 | h2 | h2
        · exact Or.inl (by rw [h2])
        · exact Or.inr (Or.inl (by simp [charListLt, h2]))
        · exact Or.inr (Or.inr (by simp [charListLt, h2]))
      · exact Or.inr (Or.inr (by simp [charListLt, h]))

theorem string_ext {a b : String} (h : a.data = b.data) : a = b := by
  cases a; cases b; cases h; rfl

theorem keyLt_irrefl (a : String) : keyLt a a = false := charListLt_irrefl a.data

theorem keyLt_trans {a b c : String} (h1 : keyLt a b = true) (h2 : keyLt b c = true) :
    keyLt a c = true := charListLt_trans h1 h2

theorem keyLt_trichotomy (a b : String) :
    a = b ∨ keyLt a b = true ∨ keyLt b a = true := by
  rcases charListLt_trichotomy a.data b.data with h | h | h
  · exact Or.inl (string_ext h)
  · exact Or.inr (Or.inl h)
  · exact Or.inr (Or.inr h)

theorem keyLt_asymm {a b : String} (h : keyLt a b = true) : keyLt b a = false := by
  by_contra hc
  have h2 : keyLt b a = true := by
    cases hb : keyLt b a with
    | false => exact absurd hb hc
    | true => rfl
  have := keyLt_trans h h2
  rw [keyLt_irrefl] at this
  exact Bool.false_ne_true this

theorem keyLt_of_ne_of_not_lt {a b : String} (hne : a ≠ b) (hnlt : ¬ keyLt a b = true) :
    keyLt b a = true := by
  rcases keyLt_trichotomy a b with h | h | h
  · exact absurd h hne
  · exact absurd h hnlt
  · exact h

theorem charListLt_eq_bytesLt_ascii :
    ∀ xs ys : List Char, (∀ c ∈ xs, c.toNat < 128) → (∀ c ∈ ys, c.toNat < 128) →
      charListLt xs ys =
        bytesLt (xs.flatMap (fun c => utf8EncodeChar c.toNat))
          (ys.flatMap (fun c => utf8EncodeChar c.toNat)) := by
  intro xs
  induction xs with
  | nil =>
    intro ys _ hys
    cases ys with
    | nil => rfl
    | cons y ys' =>
      have hy : y.toNat < 128 := hys y (List.mem_cons_self y ys')
      simp [charListLt, bytesLt, utf8EncodeChar, hy]
  | cons x xs' ih =>
    intro ys hxs hys
    have hx : x.toNat < 128 := hxs x (List.mem_cons_self x xs')
    cases ys with
    | nil => simp [charListLt, bytesLt, utf8EncodeChar, hx]
    | cons y ys' =>
      have hy : y.toNat < 128 := hys y (List.mem_cons_self y ys')
      have ihx := ih ys' (fun c hc => hxs c (List.mem_cons_of_mem x hc))
        (fun c hc => hys c (List.mem_cons_of_mem y hc))
      have hxe : utf8EncodeChar x.toNat = [x.toNat] := by simp [utf8EncodeChar, hx]
      have hye : utf8EncodeChar y.toNat = [y.toNat] := by simp [utf8EncodeChar, hy]
      simp only [List.flatMap_cons, hxe, hye, List.singleton_append]
      simp only [charListLt, bytesLt, ihx]

/-- On ASCII keys (the only keys the client uses) the embedded code-point
order agrees with Rust's UTF-8 byte order. -/
theorem keyLt_agrees_with_byte_order_on_ascii (a b : String)
    (ha : ∀ c ∈ a.data, c.toNat < 128) (hb : ∀ c ∈ b.data, c.toNat < 128) :
    keyLt a b = bytesLt (utf8Bytes a) (utf8Bytes b) :=
  charListLt_eq_bytesLt_ascii a.data b.data ha hb

theorem mem_insertSorted {x : String × String} {k v : String} :
    ∀ {m : List (String × String)}, x ∈ insertSorted k v m → x = (k, v) ∨ x ∈ m := by
  intro m
  induction m with
  | nil => intro h; simpa [insertSorted] using h
  | cons p rest ih =>
    obtain ⟨k', v'⟩ := p
    intro h
    simp only [insertSorted] at h
    by_cases h1 : k = k'
    · rw [if_pos h1] at h
      rcases List.mem_cons.mp h with h | h
      · exact Or.inl h
      · exact Or.inr (List.mem_cons_of_mem _ h)
    · rw [if_neg h1] at h
      by_cases h2 : keyLt k k' = true
      · rw [if_pos h2] at h
        rcases List.mem_cons.mp h with h | h
        · exact Or.inl h
        · exact Or.inr h
      · rw [if_neg h2] at h
        rcases List.mem_cons.mp h with h | h
        · exact Or.inr (by simp [h])
        · rcases ih h with h3 | h3
          · exact Or.inl h3
          · exact Or.inr (List.mem_cons_of_mem _ h3)

theorem findVal_insertSorted_self (k v : String) :
    ∀ m : List (String × String), findVal k (insertSorted k v m) = some v := by
  intro m
  induction m with
  | nil => simp [insertSorted, findVal]
  | cons p rest ih =>
    obtain ⟨k', v'⟩ := p
    simp only [insertSorted]
    split_ifs with h1 h2
    · simp [findVal]
    · simp [findVal]
    · simp [findVal, h1, ih]

theorem findVal_insertSorted_ne {k k' : String} (hne : k ≠ k') (v : String) :
    ∀ m : List (String × String), findVal k (insertSorted k' v m) = findVal k m := by
  intro m
  induction m with
  | nil => simp [insertSorted, findVal, hne]
  | cons p rest ih =>
    obtain ⟨k0, v0⟩ := p
    simp only [insertSorted]
    split_ifs with h1 h2
    · subst h1
      simp [findVal, hne]
    · simp [findVal, hne]
    · simp only [findVal]
      split_ifs with h3
      · rfl
      · exact ih

/-- The strict key order of adjacent entries. -/
def entryLt (a b : String × String) : Prop := keyLt a.1 b.1 = true

theorem pairwise_insertSorted {k v : String} :
    ∀ {m : List (String × String)}, m.Pairwise entryLt →
      (insertSorted k v m).Pairwise entryLt := by
  intro m
  induction m with
  | nil => intro _; simp [insertSorted, List.pairwise_singleton]
  | cons p rest ih =>
    obtain ⟨k', v'⟩ := p
    intro hp
    rw [List.pairwise_cons] at hp
    obtain ⟨hhead, htail⟩ := hp
    simp only [insertSorted]
    split_ifs with h1 h2
    · subst h1
      rw [List.pairwise_cons]
      exact ⟨fun b hb => hhead b hb, htail⟩
    · rw [List.pairwise_cons]
      refine ⟨?_, ?_⟩
      · intro b hb
        rcases List.mem_cons.mp hb with hb | hb
        · subst hb; exact h2
        · exact keyLt_trans h2 (hhead b hb)
      · rw [List.pairwise_cons]
        exact ⟨fun b hb => hhead b hb, htail⟩
    · rw [List.pairwise_cons]
      refine ⟨?_, ih htail⟩
      intro b hb
      rcases mem_insertSorted hb with hb | hb
      · subst hb
        exact keyLt_of_ne_of_not_lt h1 h2
      · exact hhead b hb

theorem pairwise_mapOfList (l : List (String × String)) :
    (mapOfList l).Pairwise entryLt := by
  unfold mapOfList
  have h : ∀ acc : List (String × String), acc.Pairwise entryLt →
      (l.foldl (fun m kv => insertSorted kv.1 kv.2 m) acc).Pairwise entryLt := by
    induction l with
    | nil => intro acc h; simpa using h
    | cons p rest ih =>
      intro acc h
      simp only [List.foldl_cons]
      exact ih _ (pairwise_insertSorted h)
  exact h [] List.Pairwise.nil

theorem insertSorted_comm {ka kb : String} (hne : ka ≠ kb) (va vb : String) :
    ∀ m : List (String × String),
      insertSorted kb vb (insertSorted ka va m) = insertSorted ka va (insertSorted kb vb m) := by
  have hne' : kb ≠ ka := Ne.symm hne
  intro m
  induction m with
  | nil =>
    simp only [insertSorted, if_neg hne, if_neg hne']
    rcases keyLt_trichotomy ka kb with h | h | h
    · exact absurd h hne
    · have hf : ¬ keyLt kb ka = true := by simp [keyLt_asymm h]
      rw [if_pos h, if_neg hf]
    · have hf : ¬ keyLt ka kb = true := by simp [keyLt_asymm h]
      rw [if_neg hf, if_pos h]
  | cons p rest ih =>
    obtain ⟨k0, v0⟩ := p
    by_cases ha : ka = k0 <;> by_cases hb : kb = k0
    · exact absurd (ha.trans hb.symm) hne
    · subst ha
      by_cases hlt : keyLt kb ka = true
      · rw [show insertSorted ka va ((ka, v0) :: rest) = (ka, va) :: rest from by
            simp [insertSorted],
          show insertSorted kb vb ((ka, va) :: rest) = (kb, vb) :: (ka, va) :: rest from by
            simp [insertSorted, hne', hlt],
          show insertSorted kb vb ((ka, v0) :: rest) = (kb, vb) :: (ka, v0) :: rest from by
            simp [insertSorted, hne', hlt],
          show insertSorted ka va ((kb, vb) :: (ka, v0) :: rest) =
              (kb, vb) :: (ka, va) :: rest from by
            simp [insertSorted, hne, keyLt_asymm hlt]]
      · rw [show insertSorted ka va ((ka, v0) :: rest) = (ka, va) :: rest from by
            simp [insertSorted],
          show insertSorted kb vb ((ka, va) :: rest) = (ka, va) :: insertSorted kb vb rest from by
            simp [insertSorted, hne', hlt],
          show insertSorted kb vb ((ka, v0) :: rest) = (ka, v0) :: insertSorted kb vb rest from by
            simp [insertSorted, hne', hlt],
          show insertSorted ka va ((ka, v0) :: insertSorted kb vb rest) =
              (ka, va) :: insertSorted kb vb rest from by
            simp [insertSorted]]
    · subst hb
      by_cases hlt : keyLt ka kb = true
      · rw [show insertSorted ka va ((kb, v0) :: rest) = (ka, va) :: (kb, v0) :: rest from by
            simp [insertSorted, hne, hlt],
          show insertSorted kb vb ((ka, va) :: (kb, v0) :: rest) =
              (ka, va) :: (kb, vb) :: rest from by
            simp [insertSorted, hne', keyLt_asymm hlt],
          show insertSorted kb vb ((kb, v0) :: rest) = (kb, vb) :: rest from by
            simp [insertSorted],
          show insertSorted ka va ((kb, vb) :: rest) = (ka, va) :: (kb, vb) :: rest from by
            simp [insertSorted, hne, hlt]]
      · rw [show insertSorted ka va ((kb, v0) :: rest) = (kb, v0) :: insertSorted ka va rest from by
            simp [insertSorted, hne, hlt],
          show insertSorted kb vb ((kb, v0) :: insertSorted ka va rest) =
              (kb, vb) :: insertSorted ka va rest from by
            simp [insertSorted],
          show insertSorted kb vb ((kb, v0) :: rest) = (kb, vb) :: rest from by
            simp [insertSorted],
          show insertSorted ka va ((kb, vb) :: rest) = (kb, vb) :: insertSorted ka va rest from by
            simp [insertSorted, hne, hlt]]
    · by_cases hla : keyLt ka k0 = true <;> by_cases hlb : keyLt kb k0 = true
      · rcases keyLt_trichotomy ka kb with h | h | h
        · exact absurd h hne
        · rw [show insertSorted ka va ((k0, v0) :: rest) = (ka, va) :: (k0, v0) :: rest from by
              simp [insertSorted, ha, hla],
            show insertSorted kb vb ((ka, va) :: (k0, v0) :: rest) =
                (ka, va) :: (kb, vb) :: (k0, v0) :: rest from by
              simp [insertSorted, hne', keyLt_asymm h, hb, hlb],
            show insertSorted kb vb ((k0, v0) :: rest) = (kb, vb) :: (k0, v0) :: rest from by
              simp [insertSorted, hb, hlb],
            show insertSorted ka va ((kb, vb) :: (k0, v0) :: rest) =
                (ka, va) :: (kb, vb) :: (k0, v0) :: rest from by
              simp [insertSorted, hne, h]]
        · rw [show insertSorted ka va ((k0, v0) :: rest) = (ka, va) :: (k0, v0) :: rest from by
              simp [insertSorted, ha, hla],
            show insertSorted kb vb ((ka, va) :: (k0, v0) :: rest) =
                (kb, vb) :: (ka, va) :: (k0, v0) :: rest from by
              simp [insertSorted, hne', h],
            show insertSorted kb vb ((k0, v0) :: rest) = (kb, vb) :: (k0, v0) :: rest from by
              simp [insertSorted, hb, hlb],
            show insertSorted ka va ((kb, vb) :: (k0, v0) :: rest) =
                (kb, vb) :: (ka, va) :: (k0, v0) :: rest from by
              simp [insertSorted, hne, keyLt_asymm h, ha, hla]]
      · have hk0b : keyLt k0 kb = true :=
          keyLt_of_ne_of_not_lt hb (by simpa using hlb)
        have hab : keyLt ka kb = true := keyLt_trans hla hk0b
        rw [show insertSorted ka va ((k0, v0) :: rest) = (ka, va) :: (k0, v0) :: rest from by
            simp [insertSorted, ha, hla],
          show insertSorted kb vb ((ka, va) :: (k0, v0) :: rest) =
              (ka, va) :: (k0, v0) :: insertSorted kb vb rest from by
            simp [insertSorted, hne', keyLt_asymm hab, hb, hlb],
          show insertSorted kb vb ((k0, v0) :: rest) = (k0, v0) :: insertSorted kb vb rest from by
            simp [insertSorted, hb, hlb],
          show insertSorted ka va ((k0, v0) :: insertSorted kb vb rest) =
              (ka, va) :: (k0, v0) :: insertSorted kb vb rest from by
            simp [insertSorted, ha, hla]]
      · have hk0a : keyLt k0 ka = true :=
          keyLt_of_ne_of_not_lt ha (by simpa using hla)
        have hba : keyLt kb ka = true := keyLt_trans hlb hk0a
        rw [show insertSorted ka va ((k0, v0) :: rest) = (k0, v0) :: insertSorted ka va rest from by
            simp [insertSorted, ha, hla],
          show insertSorted kb vb ((k0, v0) :: insertSorted ka va rest) =
              (kb, vb) :: (k0, v0) :: insertSorted ka va rest from by
            simp [insertSorted, hb, hlb],
          show insertSorted kb vb ((k0, v0) :: rest) = (kb, vb) :: (k0, v0) :: rest from by
            simp [insertSorted, hb, hlb],
          show insertSorted ka va ((kb, vb) :: (k0, v0) :: rest) =
              (kb, vb) :: (k0, v0) :: insertSorted ka va rest from by
            simp [insertSorted, hne, keyLt_asymm hba, ha, hla]]
      · rw [show insertSorted ka va ((k0, v0) :: rest) = (k0, v0) :: insertSorted ka va rest from by
            simp [insertSorted, ha, hla],
          show insertSorted kb vb ((k0, v0) :: insertSorted ka va rest) =
              (k0, v0) :: insertSorted kb vb (insertSorted ka va rest) from by
            simp [insertSorted, hb, hlb],
          show insertSorted kb vb ((k0, v0) :: rest) = (k0, v0) :: insertSorted kb vb rest from by
            simp [insertSorted, hb, hlb],
          show insertSorted ka va ((k0, v0) :: insertSorted kb vb rest) =
              (k0, v0) :: insertSorted ka va (insertSorted kb vb rest) from by
            simp [insertSorted, ha, hla],
          ih]

theorem mapOfList_perm {l1 l2 : List (String × String)} (hp : l1.Perm l2)
    (hd : (l1.map Prod.fst).Nodup) : mapOfList l1 = mapOfList l2 := by
  unfold mapOfList
  refine hp.foldl_eq' ?_ []
  intro x hx y hy z
  by_cases hxy : x = y
  · subst hxy; rfl
  · have hne : x.1 ≠ y.1 := fun he => hxy (List.inj_on_of_nodup_map hd hx hy he)
    exact insertSorted_comm hne x.2 y.2 z

/-! ## String plumbing -/

theorem sdata_append (a b : String) : (a ++ b).data = a.data ++ b.data :=
  String.data_append a b

theorem sappend_assoc (a b c : String) : a ++ b ++ c = a ++ (b ++ c) := by
  apply string_ext
  simp [sdata_append, List.append_assoc]

theorem sappend_empty (a : String) : a ++ "" = a := by
  apply string_ext
  simp [sdata_append]

theorem sempty_append (a : String) : "" ++ a = a := by
  apply string_ext
  simp [sdata_append]

theorem strPop_append_amp (x : String) : strPop (x ++ "&") = x := by
  apply string_ext
  show (strPop (x ++ "&")).data = x.data
  unfold strPop
  rw [show (String.mk (x ++ "&").data.dropLast).data = (x ++ "&").data.dropLast from rfl,
    sdata_append]
  exact List.dropLast_concat

/-- The running concatenation `part1&part2&...&partN&` the `get` loop
builds before popping. -/
def concatAmp : List String → String
  | [] => ""
  | p :: ps => p ++ "&" ++ concatAmp ps

theorem foldl_get_loop (f : String × String → String) :
    ∀ (l : List (String × String)) (acc : String),
      l.foldl (fun a kv => a ++ (f kv ++ "&")) acc = acc ++ concatAmp (l.map f) := by
  intro l
  induction l with
  | nil => intro acc; simp [concatAmp, sappend_empty]
  | cons kv rest ih =>
    intro acc
    simp only [List.foldl_cons, List.map_cons, concatAmp]
    rw [ih]
    simp [sappend_assoc]

theorem concatAmp_eq_joinSep : ∀ (p : String) (ps : List String),
    concatAmp (p :: ps) = joinSep "&" (p :: ps) ++ "&" := by
  intro p ps
  induction ps generalizing p with
  | nil => simp [concatAmp, joinSep]
  | cons q rest ih =>
    have h1 : concatAmp (p :: q :: rest) = p ++ "&" ++ concatAmp (q :: rest) := rfl
    have h2 : joinSep "&" (p :: q :: rest) = p ++ "&" ++ joinSep "&" (q :: rest) := rfl
    rw [h1, ih q, h2]
    simp [sappend_assoc]

/-- The `get` loop (push `key=value&`, pop) agrees with a sorted
`key=value` join on `&`. -/
theorem getQuery_eq_joinSep (l : List (String × String)) :
    getQuery l = joinSep "&" (l.map (fun kv => kv.1 ++ "=" ++ kv.2)) := by
  unfold getQuery
  have hf : ∀ (acc : String) ,
      l.foldl (fun a kv => a ++ (kv.1 ++ "=" ++ kv.2 ++ "&")) acc =
        acc ++ concatAmp (l.map (fun kv => kv.1 ++ "=" ++ kv.2)) := by
    intro acc
    have := foldl_get_loop (fun kv => kv.1 ++ "=" ++ kv.2) l acc
    simpa [sappend_assoc] using this
  rw [hf "", sempty_append]
  cases hm : l.map (fun kv => kv.1 ++ "=" ++ kv.2) with
  | nil => simp [concatAmp, joinSep, strPop]
  | cons p ps =>
    rw [concatAmp_eq_joinSep, strPop_append_amp]

/-! ## Percent-encoding lemmas -/

theorem charOfNat_toNat {n : Nat} (h : n < 0xD800) : (Char.ofNat n).toNat = n := by
  have hv : n.isValidChar := Or.inl h
  unfold Char.ofNat
  split
  · rfl
  · exact absurd hv (by assumption)

theorem hexDigit_props (n : Nat) :
    (hexDigit n).toNat < 128 ∧ inCustomEncodeSet (hexDigit n).toNat = false := by
  by_cases h : n < 16
  · interval_cases n <;> decide
  · unfold hexDigit
    rw [List.getD_eq_default _ _ (by push_neg at h; simpa using h)]
    decide

theorem inCustomEncodeSet_le {b : Nat} (h : inCustomEncodeSet b = false) : b ≤ 126 := by
  unfold inCustomEncodeSet at h
  simp only [Bool.or_eq_false_iff, decide_eq_false_iff_not] at h
  omega

theorem encodeByte_chars {b : Nat} {c : Char} (hc : c ∈ encodeByte b) :
    c.toNat < 128 ∧ inCustomEncodeSet c.toNat = false := by
  unfold encodeByte at hc
  by_cases h : inCustomEncodeSet b = true
  · rw [if_pos h] at hc
    rcases List.mem_cons.mp hc with h1 | h1
    · subst h1; decide
    · rcases List.mem_cons.mp h1 with h2 | h2
      · subst h2; exact hexDigit_props _
      · rcases List.mem_cons.mp h2 with h3 | h3
        · subst h3; exact hexDigit_props _
        · simp at h3
  · rw [if_neg h] at hc
    have hb : inCustomEncodeSet b = false := by
      cases he : inCustomEncodeSet b with
      | false => rfl
      | true => exact absurd he h
    have hle : b ≤ 126 := inCustomEncodeSet_le hb
    have hr : (Char.ofNat b).toNat = b := charOfNat_toNat (by omega)
    rcases List.mem_cons.mp hc with h1 | h1
    · subst h1
      rw [hr]
      exact ⟨by omega, hb⟩
    · simp at h1

theorem utf8Bytes_ascii (cs : List Char) (h : ∀ c ∈ cs, c.toNat < 128) :
    utf8Bytes (String.mk cs) = cs.map Char.toNat := by
  unfold utf8Bytes
  show cs.flatMap (fun c => utf8EncodeChar c.toNat) = cs.map Char.toNat
  induction cs with
  | nil => rfl
  | cons c rest ih =>
    have hc : c.toNat < 128 := h c (List.mem_cons_self c rest)
    rw [List.flatMap_cons, List.map_cons,
      ih (fun d hd => h d (List.mem_cons_of_mem c hd))]
    simp [utf8EncodeChar, hc]

theorem flatMap_encodeByte_fixed (cs : List Char)
    (h : ∀ c ∈ cs, c.toNat < 128 ∧ inCustomEncodeSet c.toNat = false) :
    (cs.map Char.toNat).flatMap encodeByte = cs := by
  induction cs with
  | nil => rfl
  | cons c rest ih =>
    have hc := h c (List.mem_cons_self c rest)
    rw [List.map_cons, List.flatMap_cons, ih (fun d hd => h d (List.mem_cons_of_mem c hd))]
    rw [encodeByte, if_neg (by simp [hc.2]), Char.ofNat_toNat]
    rfl

/-- Every character of a `percent_encode` output is plain printable ASCII
outside the encode set. -/
theorem percent_encode_output_clean (s : String) :
    ∀ c ∈ (percent_encode s).data, c.toNat < 128 ∧ inCustomEncodeSet c.toNat = false := by
  intro c hc
  unfold percent_encode at hc
  rcases List.mem_flatMap.mp hc with ⟨b, _, hcb⟩
  exact encodeByte_chars hcb

theorem percent_encode_idempotent (s : String) :
    percent_encode (percent_encode s) = percent_encode s := by
  have hclean := percent_encode_output_clean s
  conv_lhs => rw [percent_encode]
  rw [show percent_encode s = String.mk (percent_encode s).data from rfl,
    utf8Bytes_ascii _ (fun c hc => (hclean c hc).1),
    flatMap_encodeByte_fixed _ hclean]

/-! ## Digest and base64 length lemmas -/

theorem compressBlock_length (h blk : List Nat) : (compressBlock h blk).length = 8 := rfl

theorem foldl_compressBlock_length :
    ∀ (blocks : List (List Nat)) (h : List Nat), h.length = 8 →
      (blocks.foldl compressBlock h).length = 8 := by
  intro blocks
  induction blocks with
  | nil => intro h hh; simpa using hh
  | cons b rest ih =>
    intro h _
    simp only [List.foldl_cons]
    exact ih _ (compressBlock_length h b)

theorem flatMap_wordBytes_length (ws : List Nat) :
    (ws.flatMap wordBytes).length = 4 * ws.length := by
  induction ws with
  | nil => rfl
  | cons w rest ih =>
    rw [List.flatMap_cons, List.length_append, ih]
    simp [wordBytes]
    omega

theorem sha256_length (msg : List Nat) : (sha256 msg).length = 32 := by
  unfold sha256
  rw [flatMap_wordBytes_length, foldl_compressBlock_length _ _ (by rfl)]

theorem hmacSha256_length (key msg : List Nat) : (hmacSha256 key msg).length = 32 :=
  sha256_length _

theorem b64Groups_length :
    ∀ (fuel : Nat) (bs : List Nat), bs.length ≤ 3 * fuel →
      (b64Groups fuel bs).length = 4 * ((bs.length + 2) / 3) := by
  intro fuel
  induction fuel with
  | zero =>
    intro bs h
    have : bs = [] := List.eq_nil_of_length_eq_zero (by omega)
    subst this
    rfl
  | succ fuel ih =>
    intro bs h
    match bs with
    | [] => rfl
    | [b1] => simp [b64Groups]
    | [b1, b2] => simp [b64Groups]
    | b1 :: b2 :: b3 :: rest =>
      show (b64Groups (fuel + 1) (b1 :: b2 :: b3 :: rest)).length = _
      have hr : (b64Groups fuel rest).length = 4 * ((rest.length + 2) / 3) := by
        apply ih
        simp only [List.length_cons] at h
        omega
      simp only [b64Groups, List.length_cons, hr]
      have h3 : (rest.length + 2 + 3) / 3 = (rest.length + 2) / 3 + 1 :=
        Nat.add_div_right _ (by omega)
      omega

theorem base64Encode_32_length (bs : List Nat) (h : bs.length = 32) :
    (base64Encode bs).length = 44 := by
  unfold base64Encode
  show (b64Groups (bs.length + 1) bs).length = 44
  rw [b64Groups_length (bs.length + 1) bs (by omega), h]

theorem sign_hmac_length (secret digest : String) :
    (sign_hmac_sha256_base64 secret digest).length = 44 := by
  unfold sign_hmac_sha256_base64
  exact base64Encode_32_length _ (hmacSha256_length _ _)

/-! ## The claims -/

/-- C1: for every caller parameter map, `get_signed` and `post_signed` add
the four auth parameters (AccessKeyId, SignatureMethod = "HmacSHA256",
SignatureVersion = "2", and the `YYYY-MM-DDTHH:MM:SS` UTC timestamp) to the
caller's parameters, canonicalize the augmented set, sign the string
`METHOD\nHOST\nPATH\nCANONICAL_QUERY`, and assemble
`https://{host}{endpoint}?{canonical_query}&Signature={percent-encoded
signature}`; on an empty caller set the canonical query holds exactly the
four injected parameters, and the signature stays outside the signed
portion. -/
theorem claim_C1 :
    (∀ (c : Client) (ts endpoint : String) (params : List (String × String)),
      get_signed_url c ts endpoint params =
        "https://" ++ HUOBI_API_HOST ++ endpoint ++ "?" ++
          build_query_string (insert_auth_params c ts params) ++ "&Signature=" ++
          percent_encode (sign_hmac_sha256_base64 c.secret_key
            (presign "GET" endpoint (build_query_string (insert_auth_params c ts params))))) ∧
    (∀ (c : Client) (ts endpoint : String) (params : List (String × String)),
      post_signed_url c ts endpoint params =
        "https://" ++ HUOBI_API_HOST ++ endpoint ++ "?" ++
          build_query_string (insert_auth_params c ts params) ++ "&Signature=" ++
          percent_encode (sign_hmac_sha256_base64 c.secret_key
            (presign "POST" endpoint (build_query_string (insert_auth_params c ts params))))) ∧
    (∀ method endpoint q : String,
      presign method endpoint q =
        method ++ "\n" ++ HUOBI_API_HOST ++ "\n" ++ endpoint ++ "\n" ++ q) ∧
    (∀ (c : Client) (ts : String),
      insert_auth_params c ts [] =
        [("AccessKeyId", c.api_key), ("SignatureMethod", "HmacSHA256"),
         ("SignatureVersion", "2"), ("Timestamp", ts)]) ∧
    (∀ (c : Client) (ts : String),
      build_query_string (insert_auth_params c ts []) =
        "AccessKeyId=" ++ percent_encode c.api_key ++
          "&SignatureMethod=HmacSHA256&SignatureVersion=2&Timestamp=" ++ percent_encode ts) ∧
    get_timestamp_at 2021 1 1 0 0 0 = "2021-01-01T00:00:00" := by
  refine ⟨fun _ _ _ _ => rfl, fun _ _ _ _ => rfl, fun _ _ _ => rfl, fun _ _ => rfl, ?_, by decide⟩
  intro c ts
  have h1 : percent_encode "HmacSHA256" = "HmacSHA256" := by decide
  have h2 : percent_encode "2" = "2" := by decide
  apply string_ext
  simp [build_query_string, insert_auth_params, insertSorted, keyLt, charListLt,
    joinSep, h1, h2, sdata_append, List.append_assoc]

/-- C2: canonicalization emits the entries sorted by key (lexicographically),
values percent-encoded, keys unencoded, pairs rendered `key=value` and
joined by `&` with no trailing separator; in particular the map
symbol ↦ btcusdt, type ↦ buy canonicalizes to exactly
`symbol=btcusdt&type=buy`. -/
theorem claim_C2 :
    (∀ l : List (String × String), (mapOfList l).Pairwise entryLt) ∧
    (∀ p : String × String, build_query_string [p] = p.1 ++ "=" ++ percent_encode p.2) ∧
    (∀ p q : String × String,
      build_query_string [p, q] =
        p.1 ++ "=" ++ percent_encode p.2 ++ "&" ++ (q.1 ++ "=" ++ percent_encode q.2)) ∧
    build_query_string (mapOfList [("type", "buy"), ("symbol", "btcusdt")]) =
      "symbol=btcusdt&type=buy" :=
  ⟨pairwise_mapOfList, fun _ => rfl, fun _ _ => rfl, by decide⟩

/-- C3: two parameter sets with identical key/value pairs built in
different insertion orders canonicalize to byte-identical strings. -/
theorem claim_C3 (l1 l2 : List (String × String)) (hp : l1.Perm l2)
    (hd : (l1.map Prod.fst).Nodup) :
    build_query_string (mapOfList l1) = build_query_string (mapOfList l2) := by
  rw [mapOfList_perm hp hd]

/-- C3 witness: the example map inserted in both orders. -/
theorem claim_C3_witness :
    build_query_string (mapOfList [("type", "buy"), ("symbol", "btcusdt")]) =
      build_query_string (mapOfList [("symbol", "btcusdt"), ("type", "buy")]) :=
  claim_C3 [("type", "buy"), ("symbol", "btcusdt")] [("symbol", "btcusdt"), ("type", "buy")]
    (by decide) (by decide)

set_option maxRecDepth 1000000 in
/-- C4: `sign_hmac_sha256_base64` is the standard, padded, non-truncated
base64 of the raw HMAC-SHA256 digest of the message under the secret (both
as UTF-8 bytes): structurally it is exactly `BASE64.encode ∘ HMAC-SHA256`,
every output is 44 characters (no truncation of the 32-byte digest), and
two fixed inputs reproduce independently computed known-answer vectors
(standard alphabet — note the `/` — and trailing `=` padding). -/
theorem claim_C4 :
    (∀ secret msg : String,
      sign_hmac_sha256_base64 secret msg =
        base64Encode (hmacSha256 (utf8Bytes secret) (utf8Bytes msg))) ∧
    (∀ secret msg : String, (sign_hmac_sha256_base64 secret msg).length = 44) ∧
    sign_hmac_sha256_base64 "key" "message" = "bp7ym3X//Ft6uuUn1Y/a2y/kLnIZARl2kXNDBl9Y7Uo=" ∧
    sign_hmac_sha256_base64 "secret"
        "GET\napi.huobi.pro\n/v1/account/accounts\nAccessKeyId=apikey&SignatureMethod=HmacSHA256&SignatureVersion=2&Timestamp=2021-01-01T00%3A00%3A00" =
      "RAt/s5iyCgiCuRxNxJ4A7KfwTRdyEm3mmu27pmPLG8c=" := by
  refine ⟨fun _ _ => rfl, sign_hmac_length, ?_, ?_⟩
  · decide
  · decide

/-- C5: `percent_encode` escapes every occurrence of `+`, `,`, space and
the user-info reserved characters (no character of the encode set survives
in any output; on set bytes the rendering is the `%XX` escape), and the
same function is applied to parameter values in the canonical query and to
the final signature in the signed request target. -/
theorem claim_C5 :
    (∀ s : String, ∀ c ∈ (percent_encode s).data, inCustomEncodeSet c.toNat = false) ∧
    (∀ b : Nat, inCustomEncodeSet b = true →
      encodeByte b = [Char.ofNat 0x25, hexDigit (b / 16), hexDigit (b % 16)]) ∧
    percent_encode "+" = "%2B" ∧ percent_encode "," = "%2C" ∧ percent_encode " " = "%20" ∧
    percent_encode "/:;=@[]\\^|" = "%2F%3A%3B%3D%40%5B%5D%5C%5E%7C" ∧
    (∀ kv : String × String, build_query_string [kv] = kv.1 ++ "=" ++ percent_encode kv.2) ∧
    (∀ (c : Client) (ts endpoint : String) (params : List (String × String)),
      ∃ q : String,
        get_signed_url c ts endpoint params =
          "https://" ++ HUOBI_API_HOST ++ endpoint ++ "?" ++ q ++ "&Signature=" ++
            percent_encode (sign_hmac_sha256_base64 c.secret_key (presign "GET" endpoint q)) ∧
        post_signed_url c ts endpoint params =
          "https://" ++ HUOBI_API_HOST ++ endpoint ++ "?" ++ q ++ "&Signature=" ++
            percent_encode (sign_hmac_sha256_base64 c.secret_key (presign "POST" endpoint q))) := by
  refine ⟨fun s c hc => (percent_encode_output_clean s c hc).2,
    fun b hb => by rw [encodeByte, if_pos hb],
    by decide, by decide, by decide, by decide, fun _ => rfl, ?_⟩
  intro c ts endpoint params
  exact ⟨build_query_string (insert_auth_params c ts params), rfl, rfl⟩

/-- C5 witness: the first two conjuncts applied at concrete inputs — no
character of the output `percent_encode "+" = "%2B"` lies in the encode
set, and the set byte 0x20 renders as its escape. -/
theorem claim_C5_witness :
    inCustomEncodeSet (Char.toNat '%') = false ∧
    encodeByte 32 = [Char.ofNat 0x25, hexDigit 2, hexDigit 0] :=
  ⟨claim_C5.1 "+" '%' (by decide), claim_C5.2.1 32 (by decide)⟩

/-- C6 counterexample: the claim asserts that re-encoding an already
encoded input containing `+`, `,`, space and reserved characters changes
it; in fact the second application returns the first output unchanged
(the encode set does not contain `%`, digits or uppercase letters). -/
theorem claim_C6_counterexample :
    percent_encode (percent_encode "+, /:@[]") = percent_encode "+, /:@[]" := by decide

/-- C6 (amended): `percent_encode` is idempotent — every character it
emits is plain ASCII outside its own encode set, so a second application
is the identity on any output. -/
theorem claim_C6 : ∀ s : String, percent_encode (percent_encode s) = percent_encode s :=
  percent_encode_idempotent

/-- C7: for each of `get`, `get_signed` and `post_signed`, a body whose
envelope carries `status = "error"` fails with an API error holding the
envelope, a body with a different or missing `status` returns the raw body,
and a body that does not deserialize as the envelope fails with a
deserialization error; the four example bodies behave accordingly. -/
theorem claim_C7 :
    (∀ (body : String) (env : APIErrorResponse), parseEnvelope body = some env →
      (env.status = some "error" →
        get_check_response body = Except.error (ClientError.apiError env) ∧
        get_signed_check_response body = Except.error (ClientError.apiError env) ∧
        post_signed_check_response body = Except.error (ClientError.apiError env)) ∧
      (env.status ≠ some "error" →
        get_check_response body = Except.ok body ∧
        get_signed_check_response body = Except.ok body ∧
        post_signed_check_response body = Except.ok body)) ∧
    (∀ body : String, parseEnvelope body = none →
      get_check_response body = Except.error ClientError.deserialize ∧
      get_signed_check_response body = Except.error ClientError.deserialize ∧
      post_signed_check_response body = Except.error ClientError.deserialize) ∧
    get_check_response "\x7b\"status\":\"error\",\"err-code\":\"x\",\"err-msg\":\"y\"\x7d" =
      Except.error (ClientError.apiError ⟨some "error", some "x", some "y", none⟩) ∧
    get_signed_check_response "\x7b\"status\":\"ok\",\"data\":[]\x7d" =
      Except.ok "\x7b\"status\":\"ok\",\"data\":[]\x7d" ∧
    post_signed_check_response "\x7b\"data\":[]\x7d" = Except.ok "\x7b\"data\":[]\x7d" ∧
    get_check_response "not json" = Except.error ClientError.deserialize := by
  refine ⟨?_, ?_, by rfl, by rfl, by rfl, by rfl⟩
  · intro body env hp
    constructor
    · intro hs
      refine ⟨?_, ?_, ?_⟩ <;>
        simp [get_check_response, get_signed_check_response, post_signed_check_response,
          check_response, hp, hs]
    · intro hs
      cases hstat : env.status with
      | none =>
        refine ⟨?_, ?_, ?_⟩ <;>
          simp [get_check_response, get_signed_check_response, post_signed_check_response,
            check_response, hp, hstat]
      | some s =>
        have hsne : s ≠ "error" := fun he => hs (by rw [hstat, he])
        refine ⟨?_, ?_, ?_⟩ <;>
          simp [get_check_response, get_signed_check_response, post_signed_check_response,
            check_response, hp, hstat, hsne]
  · intro body hp
    refine ⟨?_, ?_, ?_⟩ <;>
      simp [get_check_response, get_signed_check_response, post_signed_check_response,
        check_response, hp]

/-- C7 witness: the general clauses applied to the example error body and
to a non-JSON body. -/
theorem claim_C7_witness :
    (get_check_response "\x7b\"status\":\"error\",\"err-code\":\"x\",\"err-msg\":\"y\"\x7d" =
        Except.error (ClientError.apiError ⟨some "error", some "x", some "y", none⟩) ∧
      get_signed_check_response "\x7b\"status\":\"ok\",\"data\":[]\x7d" =
        Except.ok "\x7b\"status\":\"ok\",\"data\":[]\x7d" ∧
      get_check_response "not json" = Except.error ClientError.deserialize) :=
  ⟨((claim_C7.1 "\x7b\"status\":\"error\",\"err-code\":\"x\",\"err-msg\":\"y\"\x7d"
        ⟨some "error", some "x", some "y", none⟩ (by rfl)).1 (by rfl)).1,
    (((claim_C7.1 "\x7b\"status\":\"ok\",\"data\":[]\x7d"
        ⟨some "ok", none, none, some (Json.arr [])⟩ (by rfl)).2 (by decide)).2).1,
    (claim_C7.2.1 "not json" (by rfl)).1⟩

/-- C8 counterexample: on the map a ↦ +, the query string `get` embeds
(`a=+`, value not percent-encoded) differs from the canonical query
`build_query_string` yields (`a=%2B`). -/
theorem claim_C8_counterexample :
    getQuery (mapOfList [("a", "+")]) ≠ build_query_string (mapOfList [("a", "+")]) := by
  decide

/-- C8 (amended): the unsigned `get` embeds its parameters in key order
joined by `&` exactly like the canonical serialization but WITHOUT
percent-encoding the values; it therefore agrees with `build_query_string`
precisely on maps whose values are fixed points of `percent_encode`
(e.g. plain alphanumeric values), and differs otherwise. -/
theorem claim_C8 :
    (∀ (endpoint : String) (params : List (String × String)),
      get_request_url endpoint params =
        "https://" ++ HUOBI_API_HOST ++ endpoint ++ "?" ++ getQuery params) ∧
    (∀ params : List (String × String),
      getQuery params = joinSep "&" (params.map (fun kv => kv.1 ++ "=" ++ kv.2))) ∧
    (∀ params : List (String × String), (∀ kv ∈ params, percent_encode kv.2 = kv.2) →
      getQuery params = build_query_string params) := by
  refine ⟨fun _ _ => rfl, getQuery_eq_joinSep, ?_⟩
  intro params h
  rw [getQuery_eq_joinSep]
  unfold build_query_string
  congr 1
  apply List.map_congr_left
  intro kv hkv
  rw [h kv hkv]

/-- C8 witness: the amended agreement clause applied to a plain map. -/
theorem claim_C8_witness : getQuery [("a", "b")] = build_query_string [("a", "b")] :=
  claim_C8.2.2 [("a", "b")] (by decide)

/-- C9 counterexample: the claim asserts the unsigned request target never
carries a dangling `?`; on the empty parameter set `get` still appends `?`
followed by nothing, so the target ends in `?`. -/
theorem claim_C9_counterexample :
    get_request_url "/market/tickers" [] = "https://api.huobi.pro/market/tickers?" ∧
    (get_request_url "/market/tickers" []).data.getLast? = some '?' := by decide

/-- C9 (amended): canonicalizing the empty parameter set yields the empty
string (as does the `get` loop), but `get` appends `?` unconditionally, so
on an empty parameter set the request target ends in a dangling `?`. -/
theorem claim_C9 :
    build_query_string [] = "" ∧ getQuery [] = "" ∧
    (∀ endpoint : String,
      get_request_url endpoint [] = "https://" ++ HUOBI_API_HOST ++ endpoint ++ "?") ∧
    (∀ (endpoint : String) (params : List (String × String)),
      get_request_url endpoint params =
        "https://" ++ HUOBI_API_HOST ++ endpoint ++ "?" ++ getQuery params) := by
  refine ⟨rfl, rfl, ?_, fun _ _ => rfl⟩
  intro endpoint
  simp [get_request_url, getQuery, strPop, sappend_empty]

/-- C10: whatever the caller-supplied map contains — the four auth keys
included — after the injection the map holds the client-chosen values for
`AccessKeyId`, `SignatureMethod`, `SignatureVersion` and `Timestamp`, so a
caller-chosen value for those keys never reaches the signed query. -/
theorem claim_C10 (c : Client) (ts : String) (params : List (String × String)) :
    findVal "AccessKeyId" (insert_auth_params c ts params) = some c.api_key ∧
    findVal "SignatureMethod" (insert_auth_params c ts params) = some "HmacSHA256" ∧
    findVal "SignatureVersion" (insert_auth_params c ts params) = some "2" ∧
    findVal "Timestamp" (insert_auth_params c ts params) = some ts := by
  unfold insert_auth_params
  refine ⟨?_, ?_, ?_, ?_⟩
  · rw [findVal_insertSorted_ne (by decide) _ _, findVal_insertSorted_ne (by decide) _ _,
      findVal_insertSorted_ne (by decide) _ _, findVal_insertSorted_self]
  · rw [findVal_insertSorted_ne (by decide) _ _, findVal_insertSorted_ne (by decide) _ _,
      findVal_insertSorted_self]
  · rw [findVal_insertSorted_ne (by decide) _ _, findVal_insertSorted_self]
  · rw [findVal_insertSorted_self]

end Huobi
